import Mathlib

/-!
Verification of the bobrwm tiling window manager engine.

The repository ships the C binding header src/shim/shim.h, which fixes the
event-kind enumeration, the modifier flags, the keybind record and the
collaborator interface. The engine behind the bindings (event queue, model,
tiling, keybind dispatch, IPC) is specified in spec.md; definitions for it
below are modelled from that specification and are marked as such.
Rectangle coordinates are embedded as rationals; the recursive subdivision
of the tiling algorithm is exact there, so partition statements are proved
with exact equality rather than a floating-point tolerance.
-/

-- === Event kind tags (from src/shim/shim.h, enum bw_event_kind) ===

/-- Tag of the window-created OS notification (shim.h line 11). -/
def BW_EVENT_WINDOW_CREATED : Nat := 1

/-- Tag of the window-destroyed OS notification. -/
def BW_EVENT_WINDOW_DESTROYED : Nat := 2

/-- Tag of the window-focused OS notification. -/
def BW_EVENT_WINDOW_FOCUSED : Nat := 3

/-- Tag of the window-moved OS notification. -/
def BW_EVENT_WINDOW_MOVED : Nat := 4

/-- Tag of the window-resized OS notification. -/
def BW_EVENT_WINDOW_RESIZED : Nat := 5

/-- Tag of the window-minimized OS notification. -/
def BW_EVENT_WINDOW_MINIMIZED : Nat := 6

/-- Tag of the window-deminimized OS notification. -/
def BW_EVENT_WINDOW_DEMINIMIZED : Nat := 7

/-- Tag of the app-launched OS notification. -/
def BW_EVENT_APP_LAUNCHED : Nat := 8

/-- Tag of the app-terminated OS notification. -/
def BW_EVENT_APP_TERMINATED : Nat := 9

/-- Tag of the space-changed OS notification. -/
def BW_EVENT_SPACE_CHANGED : Nat := 10

/-- Tag of the display-changed OS notification. -/
def BW_EVENT_DISPLAY_CHANGED : Nat := 11

/-- Tag of the focused-window-changed OS notification. -/
def BW_EVENT_FOCUSED_WINDOW_CHANGED : Nat := 12

/-- Tag of the focus-workspace hotkey action (shim.h line 24). -/
def BW_HK_FOCUS_WORKSPACE : Nat := 20

/-- Tag of the move-to-workspace hotkey action. -/
def BW_HK_MOVE_TO_WORKSPACE : Nat := 21

/-- Tag of the focus-left hotkey action. -/
def BW_HK_FOCUS_LEFT : Nat := 22

/-- Tag of the focus-right hotkey action. -/
def BW_HK_FOCUS_RIGHT : Nat := 23

/-- Tag of the focus-up hotkey action. -/
def BW_HK_FOCUS_UP : Nat := 24

/-- Tag of the focus-down hotkey action. -/
def BW_HK_FOCUS_DOWN : Nat := 25

/-- Tag of the toggle-split hotkey action. -/
def BW_HK_TOGGLE_SPLIT : Nat := 26

/-- Tag of the toggle-fullscreen hotkey action. -/
def BW_HK_TOGGLE_FULLSCREEN : Nat := 27

/-- Tag of the toggle-float hotkey action. -/
def BW_HK_TOGGLE_FLOAT : Nat := 28

/-- OS notification tags of enum bw_event_kind, in header order. -/
def bwOsEventKinds : List Nat :=
  [BW_EVENT_WINDOW_CREATED, BW_EVENT_WINDOW_DESTROYED, BW_EVENT_WINDOW_FOCUSED,
   BW_EVENT_WINDOW_MOVED, BW_EVENT_WINDOW_RESIZED, BW_EVENT_WINDOW_MINIMIZED,
   BW_EVENT_WINDOW_DEMINIMIZED, BW_EVENT_APP_LAUNCHED, BW_EVENT_APP_TERMINATED,
   BW_EVENT_SPACE_CHANGED, BW_EVENT_DISPLAY_CHANGED, BW_EVENT_FOCUSED_WINDOW_CHANGED]

/-- Hotkey action tags of enum bw_event_kind, in header order. -/
def bwHotkeyKinds : List Nat :=
  [BW_HK_FOCUS_WORKSPACE, BW_HK_MOVE_TO_WORKSPACE, BW_HK_FOCUS_LEFT,
   BW_HK_FOCUS_RIGHT, BW_HK_FOCUS_UP, BW_HK_FOCUS_DOWN,
   BW_HK_TOGGLE_SPLIT, BW_HK_TOGGLE_FULLSCREEN, BW_HK_TOGGLE_FLOAT]

/-- Every tag of enum bw_event_kind. -/
def bwAllEventKinds : List Nat := bwOsEventKinds ++ bwHotkeyKinds

-- === Modifier flags (from src/shim/shim.h, BW_MOD_*) ===

/-- Modifier flag for the alt key, 1 shifted left by 0 (shim.h line 37). -/
def BW_MOD_ALT : Nat := 1 <<< 0

/-- Modifier flag for the shift key, 1 shifted left by 1. -/
def BW_MOD_SHIFT : Nat := 1 <<< 1

/-- Modifier flag for the command key, 1 shifted left by 2. -/
def BW_MOD_CMD : Nat := 1 <<< 2

/-- Modifier flag for the control key, 1 shifted left by 3. -/
def BW_MOD_CTRL : Nat := 1 <<< 3

/-- Bitmask built from the four modifier flags, combined with bitwise or as
the C shim does when matching a keystroke against the keybind table. -/
def modMask (alt sh cmd ctl : Bool) : Nat :=
  (if alt then BW_MOD_ALT else 0) |||
  ((if sh then BW_MOD_SHIFT else 0) |||
   ((if cmd then BW_MOD_CMD else 0) |||
    (if ctl then BW_MOD_CTRL else 0)))

/-- Test of a single modifier flag inside a mods bitmask. -/
def hasModFlag (mask flag : Nat) : Bool := (mask &&& flag) != 0

/-- Decoding of a mods bitmask back into the four modifier booleans. -/
def modPresent (mask : Nat) : Bool × Bool × Bool × Bool :=
  (hasModFlag mask BW_MOD_ALT, hasModFlag mask BW_MOD_SHIFT,
   hasModFlag mask BW_MOD_CMD, hasModFlag mask BW_MOD_CTRL)

/-- Uncurried form of modMask over a quadruple of modifier booleans. -/
def modMaskT (p : Bool × Bool × Bool × Bool) : Nat :=
  modMask p.1 p.2.1 p.2.2.1 p.2.2.2

-- === Keybinds (from src/shim/shim.h, bw_keybind) ===

/-- Keybind record of shim.h: keycode, modifier bitmask, action tag
(a bw_event_kind value) and a numeric argument. The C fields are
uint16, uint8, uint8 and uint32; the claims about their ranges are
settled separately, so the embedding uses Nat. -/
structure bw_keybind where
  keycode : Nat
  mods : Nat
  action : Nat
  arg : Nat
deriving DecidableEq, Repr

/-- Modelled from the spec: the engine event record behind bw_emit_event is
defined in event.zig, which is not in the repository. Spec section 3: a
tagged union with a kind, plus payload fields pid, wid and a numeric arg
for hotkey actions. -/
structure bw_event where
  kind : Nat
  pid : Int
  wid : Nat
  arg : Nat
deriving DecidableEq, Repr

/-- Modelled from the spec: keybind lookup (spec section 4.4), implemented in
the shim and Zig sources that are not in the repository. Lookup is by exact
keycode and modifier match; the first matching entry wins. -/
def lookupKeybind (table : List bw_keybind) (keycode mods : Nat) : Option bw_keybind :=
  table.find? (fun b => b.keycode == keycode && b.mods == mods)

/-- Modelled from the spec: the hotkey event synthesized on a keybind match
(spec sections 3 and 4.4) carries the action tag as its kind and the
keybind argument as its arg; it refers to no particular window. -/
def hotkeyEvent (b : bw_keybind) : bw_event :=
  { kind := b.action, pid := 0, wid := 0, arg := b.arg }

/-- Modelled from the spec: the keybind dispatcher state behind
bw_set_keybinds (spec section 4.4). The table is the active keybind list;
inflight records a lookup that has begun by capturing the table it read
together with the keycode and modifiers being looked up. -/
structure KeybindDispatcher where
  table : List bw_keybind
  inflight : Option (List bw_keybind × Nat × Nat)
deriving DecidableEq

/-- Modelled from the spec: bw_set_keybinds replaces the active table
(spec: the last-registered table fully replaces the previous one). -/
def setKeybinds (s : KeybindDispatcher) (t : List bw_keybind) : KeybindDispatcher :=
  { s with table := t }

/-- Modelled from the spec: the start of a lookup captures the current table
together with the keycode and modifiers (spec section 4.4: lookup is a pure
function over the current table). -/
def beginLookup (s : KeybindDispatcher) (keycode mods : Nat) : KeybindDispatcher :=
  { s with inflight := some (s.table, keycode, mods) }

/-- Modelled from the spec: the completion of an in-flight lookup computes
the action and argument from the captured table only. -/
def completeLookup (s : KeybindDispatcher) : Option (Nat × Nat) :=
  match s.inflight with
  | none => none
  | some (t, k, m) =>
      match lookupKeybind t k m with
      | some b => some (b.action, b.arg)
      | none => none

-- === Event queue (spec section 4.1; the Zig ring behind bw_emit_event and
-- bw_drain_events is not in the repository) ===

/-- Modelled from the spec: the bounded event ring behind bw_emit_event and
bw_drain_events (spec section 4.1): a bounded ring with a drop-oldest
overflow policy and a dropped-event counter. The buffer is kept oldest
first. -/
structure EventQueue where
  buf : List bw_event
  cap : Nat
  dropped : Nat
deriving DecidableEq, Repr

/-- Modelled from the spec: enqueue (the producer side of bw_emit_event).
Under capacity the event is appended; at capacity the oldest event is
dropped, the dropped counter is incremented, and the new event is kept. -/
def pushEvent (q : EventQueue) (e : bw_event) : EventQueue :=
  if q.buf.length < q.cap then
    { q with buf := q.buf ++ [e] }
  else
    { q with buf := q.buf.tail ++ [e], dropped := q.dropped + 1 }

/-- Modelled from the spec: drain (the consumer side, bw_drain_events)
returns all queued events in FIFO order and swaps in an empty buffer. -/
def drainEvents (q : EventQueue) : EventQueue × List bw_event :=
  ({ q with buf := [] }, q.buf)

/-- Modelled from the spec: dispatch of a captured keystroke (spec section
4.4): on a table match the synthesized hotkey event is enqueued for the
engine; on no match nothing is enqueued and the keystroke passes through
to the OS. -/
def dispatchKeystroke (table : List bw_keybind) (keycode mods : Nat)
    (q : EventQueue) : EventQueue :=
  match lookupKeybind table keycode mods with
  | some b => pushEvent q (hotkeyEvent b)
  | none => q

/-- Operation of a producer-consumer history on the event queue: an emit by
some producer, or a drain by the engine loop. -/
inductive QueueOp where
  | emit (e : bw_event)
  | drain
deriving DecidableEq, Repr

/-- Step of a queue history: the pair carries the queue and the list of
events delivered to the consumer so far, in delivery order. -/
def queueStep : EventQueue × List bw_event → QueueOp → EventQueue × List bw_event
  | (q, d), QueueOp.emit e => (pushEvent q e, d)
  | (q, d), QueueOp.drain => ((drainEvents q).1, d ++ (drainEvents q).2)

/-- Queue history starting from a given queue and delivery list. -/
def runQueueFrom (q : EventQueue) (d : List bw_event) (ops : List QueueOp) :
    EventQueue × List bw_event :=
  ops.foldl queueStep (q, d)

/-- Empty event queue with a given capacity. -/
def initQueue (cap : Nat) : EventQueue := { buf := [], cap := cap, dropped := 0 }

/-- Queue history starting from an empty queue of a given capacity. -/
def runQueueOps (cap : Nat) (ops : List QueueOp) : EventQueue × List bw_event :=
  runQueueFrom (initQueue cap) [] ops

/-- Events emitted along a queue history, in emission order. -/
def emitted (ops : List QueueOp) : List bw_event :=
  ops.filterMap (fun op =>
    match op with
    | QueueOp.emit e => some e
    | QueueOp.drain => none)

-- === Frames and the tiling tree (spec sections 3 and 4.3) ===

/-- Usable display frame record of shim.h (bw_frame): origin and size in a
top-left-origin coordinate space. The C fields are doubles; the embedding
uses rationals, on which the subdivision arithmetic is exact. -/
structure bw_frame where
  x : ℚ
  y : ℚ
  w : ℚ
  h : ℚ
deriving DecidableEq, Repr

/-- Split orientation of an internal tiling node (spec section 3). -/
inductive SplitOrientation where
  | horizontal
  | vertical
deriving DecidableEq, Repr

/-- Modelled from the spec: the tiling tree (spec section 3, Tiling Tree
Node; the Zig model sources are not in the repository). Leaves reference
exactly one window id; internal nodes have exactly two children, a split
orientation and a split ratio. -/
inductive TilingTree where
  | leaf (wid : Nat)
  | node (o : SplitOrientation) (ratio : ℚ) (l : TilingTree) (r : TilingTree)
deriving DecidableEq, Repr

/-- Window ids at the leaves of a tiling tree, left to right. -/
def leafWindows : TilingTree → List Nat
  | TilingTree.leaf wid => [wid]
  | TilingTree.node _ _ l r => leafWindows l ++ leafWindows r

/-- Well-formedness of a tiling tree: every split ratio lies strictly
between 0 and 1. -/
def wfTree : TilingTree → Bool
  | TilingTree.leaf _ => true
  | TilingTree.node _ r l rt =>
      decide (0 < r) && (decide (r < 1) && (wfTree l && wfTree rt))

/-- Modelled from the spec: subdivision of a rectangle by an internal node
(spec section 4.3): a vertical split divides the width at the ratio, a
horizontal split divides the height; the first component is the left or
top child rectangle. -/
def splitFrame (f : bw_frame) (o : SplitOrientation) (r : ℚ) : bw_frame × bw_frame :=
  match o with
  | SplitOrientation.vertical =>
      (⟨f.x, f.y, f.w * r, f.h⟩, ⟨f.x + f.w * r, f.y, f.w * (1 - r), f.h⟩)
  | SplitOrientation.horizontal =>
      (⟨f.x, f.y, f.w, f.h * r⟩, ⟨f.x, f.y + f.h * r, f.w, f.h * (1 - r)⟩)

/-- Modelled from the spec: the recursive rectangle subdivision of retile
(spec section 4.3). A leaf receives the whole inherited rectangle; an
internal node splits its rectangle and recurses. The output is the list of
window-frame assignments, left to right. -/
def retileTree (f : bw_frame) : TilingTree → List (Nat × bw_frame)
  | TilingTree.leaf wid => [(wid, f)]
  | TilingTree.node o r l rt =>
      retileTree (splitFrame f o r).1 l ++ retileTree (splitFrame f o r).2 rt

/-- Membership of a value in a half-open interval given by origin and
length. -/
def inIv (a len p : ℚ) : Prop := a ≤ p ∧ p < a + len

instance (a len p : ℚ) : Decidable (inIv a len p) :=
  inferInstanceAs (Decidable (a ≤ p ∧ p < a + len))

/-- Membership of a point in a frame, with half-open edges on the far
sides so that adjacent tiles meet without overlapping. -/
def pointIn (px py : ℚ) (f : bw_frame) : Prop := inIv f.x f.w px ∧ inIv f.y f.h py

instance (px py : ℚ) (f : bw_frame) : Decidable (pointIn px py f) :=
  inferInstanceAs (Decidable (inIv f.x f.w px ∧ inIv f.y f.h py))

/-- Disjointness of two frames as point sets. -/
def framesDisjoint (g1 g2 : bw_frame) : Prop :=
  ∀ px py, pointIn px py g1 → ¬ pointIn px py g2

/-- Partition property of a retile output: one assignment per leaf, the
assigned windows are exactly the leaves in order, every point of the input
frame lies in some assigned rectangle and conversely, and the assigned
rectangles are pairwise disjoint. -/
def retilePartitionSpec (f : bw_frame) (t : TilingTree) : Prop :=
  (retileTree f t).length = (leafWindows t).length ∧
  (retileTree f t).map Prod.fst = leafWindows t ∧
  (∀ px py, pointIn px py f ↔ ∃ pr ∈ retileTree f t, pointIn px py pr.2) ∧
  ((retileTree f t).map Prod.snd).Pairwise framesDisjoint

-- === Engine state and retile (spec sections 4.2 and 4.3) ===

/-- Modelled from the spec: the per-workspace engine state the tiling engine
reads (spec sections 3 and 4.3): the owning display's usable frame and the
workspace's tiling tree (none when the workspace is empty). -/
structure EngineState where
  usable : bw_frame
  tree : Option TilingTree
deriving DecidableEq

/-- Usable display frame of the engine state, the collaborator query
bw_get_display_frame of shim.h. -/
def getDisplayFrame (s : EngineState) : bw_frame := s.usable

/-- Modelled from the spec: retile (spec section 4.3, the Zig engine behind
bw_retile is not in the repository). Retile recomputes the target frame of
every leaf from the usable frame; it only computes assignments and leaves
the model state unchanged. -/
def retile (s : EngineState) : EngineState × List (Nat × bw_frame) :=
  (s, match s.tree with
      | none => []
      | some t => retileTree s.usable t)

-- === Window lifecycle events on the tree (spec sections 3 and 4.2) ===

/-- Window-lifecycle event restricted to the kinds claim C2 quantifies
over: window created and window destroyed. -/
inductive WindowEvent where
  | created (wid : Nat)
  | destroyed (wid : Nat)
deriving DecidableEq, Repr

/-- Window ids tracked by a possibly empty tiling tree. -/
def treeLeaves : Option TilingTree → List Nat
  | none => []
  | some t => leafWindows t

/-- Modelled from the spec: insertion of a newly created window into the
workspace tree (spec section 4.2: insert the window, add it to the active
workspace tree). An empty workspace becomes a single leaf; otherwise the
tree is split against the new leaf at the default ratio, as in the
two-window scenario of spec section 8. -/
def insertWindow (wid : Nat) : Option TilingTree → TilingTree
  | none => TilingTree.leaf wid
  | some t => TilingTree.node SplitOrientation.vertical (1 / 2 : ℚ) t (TilingTree.leaf wid)

/-- Modelled from the spec: removal of a destroyed window from the tree
(spec section 3: destruction removes it from its workspace's tiling tree;
removing a leaf promotes its sibling). The removal takes the leftmost leaf
carrying the id. -/
def removeWindow (wid : Nat) : TilingTree → Option TilingTree
  | TilingTree.leaf v => if v = wid then none else some (TilingTree.leaf v)
  | TilingTree.node o r l rt =>
      if wid ∈ leafWindows l then
        match removeWindow wid l with
        | none => some rt
        | some l2 => some (TilingTree.node o r l2 rt)
      else
        match removeWindow wid rt with
        | none => some l
        | some rt2 => some (TilingTree.node o r l rt2)

/-- Modelled from the spec: the engine loop transition for window created
and window destroyed events (spec section 4.2). Creation is
create-if-absent; destruction of an unknown window is a no-op inside
removeWindow. -/
def applyWindowEvent (m : Option TilingTree) (e : WindowEvent) : Option TilingTree :=
  match e with
  | WindowEvent.created wid =>
      if wid ∈ treeLeaves m then m else some (insertWindow wid m)
  | WindowEvent.destroyed wid =>
      match m with
      | none => none
      | some t => removeWindow wid t

/-- Workspace tree reached from the initial empty state by a sequence of
window-lifecycle events. -/
def runWindowEvents (es : List WindowEvent) : Option TilingTree :=
  es.foldl applyWindowEvent none

-- === IPC command server (spec sections 4.5 and 6) ===

/-- Raw IPC command as received on the wire (spec section 6): a name and a
list of numeric arguments. -/
structure IpcCommand where
  name : String
  args : List Nat
deriving DecidableEq, Repr

/-- Parsed IPC command (spec section 6 command set). -/
inductive ParsedCommand where
  | listWindows
  | listWorkspaces
  | focusWorkspace (n : Nat)
  | moveWindowToWorkspace (n : Nat)
  | toggleSplit
  | toggleFullscreen
  | toggleFloat
deriving DecidableEq, Repr

/-- Modelled from the spec: parsing of a raw IPC command into the known
command set (spec sections 4.5 and 6); anything else fails to parse. -/
def parseIpcCommand (c : IpcCommand) : Option ParsedCommand :=
  if c.name == "list-windows" then some ParsedCommand.listWindows
  else if c.name == "list-workspaces" then some ParsedCommand.listWorkspaces
  else if c.name == "focus-workspace" then
    match c.args with
    | [n] => some (ParsedCommand.focusWorkspace n)
    | _ => none
  else if c.name == "move-window-to-workspace" then
    match c.args with
    | [n] => some (ParsedCommand.moveWindowToWorkspace n)
    | _ => none
  else if c.name == "toggle-split" then some ParsedCommand.toggleSplit
  else if c.name == "toggle-fullscreen" then some ParsedCommand.toggleFullscreen
  else if c.name == "toggle-float" then some ParsedCommand.toggleFloat
  else none

/-- IPC response record (spec section 6 wire contract): a success flag, an
error string on failure, and window data for queries. -/
structure IpcResponse where
  ok : Bool
  error : Option String
  dataWindows : List (Nat × bw_frame)
deriving DecidableEq

/-- Modelled from the spec: the state visible to the IPC server behind
bw_handle_ipc_client: the engine model and the event queue mutation
commands enqueue into. -/
structure ServerState where
  engine : EngineState
  queue : EventQueue
deriving DecidableEq

/-- Success response with optional window data. -/
def okResponse (ws : List (Nat × bw_frame)) : IpcResponse :=
  { ok := true, error := none, dataWindows := ws }

/-- Enqueueing of a hotkey event by a mutation command: the hotkey kind and
its numeric argument, with no window reference. -/
def enqueueHotkey (s : ServerState) (kind arg : Nat) : ServerState :=
  { s with queue := pushEvent s.queue { kind := kind, pid := 0, wid := 0, arg := arg } }

/-- Modelled from the spec: execution of a parsed IPC command (spec
sections 4.5 and 5): queries read the model; mutation commands enqueue the
corresponding hotkey event and touch nothing else. -/
def execIpcCommand (s : ServerState) (pc : ParsedCommand) : ServerState × IpcResponse :=
  match pc with
  | ParsedCommand.listWindows => (s, okResponse (retile s.engine).2)
  | ParsedCommand.listWorkspaces => (s, okResponse [])
  | ParsedCommand.focusWorkspace n => (enqueueHotkey s BW_HK_FOCUS_WORKSPACE n, okResponse [])
  | ParsedCommand.moveWindowToWorkspace n =>
      (enqueueHotkey s BW_HK_MOVE_TO_WORKSPACE n, okResponse [])
  | ParsedCommand.toggleSplit => (enqueueHotkey s BW_HK_TOGGLE_SPLIT 0, okResponse [])
  | ParsedCommand.toggleFullscreen => (enqueueHotkey s BW_HK_TOGGLE_FULLSCREEN 0, okResponse [])
  | ParsedCommand.toggleFloat => (enqueueHotkey s BW_HK_TOGGLE_FLOAT 0, okResponse [])

/-- Modelled from the spec: the IPC command handler behind
bw_handle_ipc_client (spec section 4.5): a command that does not parse is
answered with a structured failure and does not touch the state. -/
def handleIpcCommand (s : ServerState) (c : IpcCommand) : ServerState × IpcResponse :=
  match parseIpcCommand c with
  | none => (s, { ok := false, error := some ("unknown command"), dataWindows := [] })
  | some pc => execIpcCommand s pc

-- === Focused window query (shim.h, bw_ax_get_focused_window) ===

/-- Modelled from the spec: getFocusedWindow of spec section 6, the
platform query bw_ax_get_focused_window whose implementation is not in the
repository; per its header documentation it returns the focused window id
for the pid, or 0 on failure. The abstract focused window of the app is
the Option argument. -/
def getFocusedWindow (focused : Option Nat) : Nat :=
  match focused with
  | none => 0
  | some wid => wid

/-- Two-window demonstration tree of the spec section 8 scenario: windows 1
and 2 under a vertical split at the default ratio. -/
def demoTree : TilingTree :=
  TilingTree.node SplitOrientation.vertical (1 / 2 : ℚ)
    (TilingTree.leaf 1) (TilingTree.leaf 2)

/-- Demonstration engine state on a 1000 by 800 usable frame. -/
def demoEngine : EngineState :=
  { usable := ⟨0, 0, 1000, 800⟩, tree := some demoTree }

-- ============================== Theorems ==============================

-- === Helper lemmas ===

/-- Enqueueing always leaves the new event at the back of the buffer. -/
theorem pushEvent_getLast (q : EventQueue) (e : bw_event) :
    (pushEvent q e).buf.getLast? = some e := by
  unfold pushEvent
  by_cases h : q.buf.length < q.cap
  · simp [h]
  · simp [h]

/-- Insertion appends the new window id to the tracked leaf list. -/
theorem leafWindows_insertWindow (wid : Nat) (m : Option TilingTree) :
    leafWindows (insertWindow wid m) = treeLeaves m ++ [wid] := by
  cases m with
  | none => rfl
  | some t => rfl

/-- Removal erases the leftmost occurrence of the window id from the leaf
list. -/
theorem treeLeaves_removeWindow (wid : Nat) (t : TilingTree) :
    treeLeaves (removeWindow wid t) = (leafWindows t).erase wid := by
  induction t with
  | leaf v =>
      by_cases hv : v = wid
      · subst hv
        simp [removeWindow, leafWindows, treeLeaves, List.erase_cons]
      · simp [removeWindow, hv, leafWindows, treeLeaves, List.erase_cons]
  | node o r l rt ihl ihr =>
      by_cases hmem : wid ∈ leafWindows l
      · cases hcall : removeWindow wid l with
        | none =>
            have h0 : (leafWindows l).erase wid = [] := by
              rw [← ihl, hcall]
              rfl
            simp [removeWindow, hmem, hcall, leafWindows, treeLeaves,
              List.erase_append_left _ hmem, h0]
        | some l2 =>
            have h0 : (leafWindows l).erase wid = leafWindows l2 := by
              rw [← ihl, hcall]
              rfl
            simp [removeWindow, hmem, hcall, leafWindows, treeLeaves,
              List.erase_append_left _ hmem, h0]
      · cases hcall : removeWindow wid rt with
        | none =>
            have h0 : (leafWindows rt).erase wid = [] := by
              rw [← ihr, hcall]
              rfl
            simp [removeWindow, hmem, hcall, leafWindows, treeLeaves,
              List.erase_append_right _ hmem, h0]
        | some rt2 =>
            have h0 : (leafWindows rt).erase wid = leafWindows rt2 := by
              rw [← ihr, hcall]
              rfl
            simp [removeWindow, hmem, hcall, leafWindows, treeLeaves,
              List.erase_append_right _ hmem, h0]

/-- One engine transition preserves uniqueness of the tracked leaf list. -/
theorem applyWindowEvent_nodup (m : Option TilingTree) (e : WindowEvent)
    (hm : (treeLeaves m).Nodup) : (treeLeaves (applyWindowEvent m e)).Nodup := by
  cases e with
  | created wid =>
      by_cases hmem : wid ∈ treeLeaves m
      · simpa [applyWindowEvent, hmem] using hm
      · have hins : treeLeaves (applyWindowEvent m (WindowEvent.created wid))
            = treeLeaves m ++ [wid] := by
          simp only [applyWindowEvent, if_neg hmem]
          exact leafWindows_insertWindow wid m
        rw [hins]
        simp [List.nodup_append, hm, hmem]
  | destroyed wid =>
      cases m with
      | none => simpa [applyWindowEvent] using hm
      | some t =>
          have hrm : treeLeaves (applyWindowEvent (some t) (WindowEvent.destroyed wid))
              = (leafWindows t).erase wid := by
            simp [applyWindowEvent, treeLeaves_removeWindow]
          rw [hrm]
          exact hm.erase wid

/-- Any event history from the empty workspace keeps the leaf list free of
duplicates. -/
theorem runWindowEvents_nodup (es : List WindowEvent) :
    (treeLeaves (runWindowEvents es)).Nodup := by
  suffices h : ∀ m, (treeLeaves m).Nodup →
      (treeLeaves (es.foldl applyWindowEvent m)).Nodup by
    exact h none List.nodup_nil
  induction es with
  | nil => intro m hm; exact hm
  | cons e es ih =>
      intro m hm
      exact ih _ (applyWindowEvent_nodup m e hm)

-- === Claim theorems ===

/-- C9: the numeric tags of enum bw_event_kind are pairwise distinct, the
OS notification kinds occupy 1 to 12, the hotkey action kinds occupy the
disjoint range 20 to 28, and every tag fits in a uint8, so a keybind
action byte can hold any hotkey action and the kind byte of an event
identifies its variant unambiguously. -/
theorem bw_event_kind_tags :
    bwAllEventKinds = [1, 2, 3, 4, 5, 6, 7, 8, 9, 10, 11, 12,
      20, 21, 22, 23, 24, 25, 26, 27, 28] ∧
    bwAllEventKinds.Nodup ∧
    bwOsEventKinds.all (fun k => decide (1 ≤ k) && decide (k ≤ 12)) = true ∧
    bwHotkeyKinds.all (fun k => decide (20 ≤ k) && decide (k ≤ 28)) = true ∧
    bwAllEventKinds.all (fun k => decide (k < 256)) = true := by
  decide

/-- C10: the four modifier flags are the distinct single-bit values 1, 2,
4, 8; the bitmask encoding of a modifier set is injective, each flag is
pairwise disjoint from the others, and each modifier's presence is decoded
from the mask independently of the rest. -/
theorem bw_mod_flags_ok (p q : Bool × Bool × Bool × Bool)
    (h : modMaskT p = modMaskT q) :
    p = q ∧ modPresent (modMaskT p) = p ∧
    BW_MOD_ALT = 1 ∧ BW_MOD_SHIFT = 2 ∧ BW_MOD_CMD = 4 ∧ BW_MOD_CTRL = 8 ∧
    BW_MOD_ALT &&& BW_MOD_SHIFT = 0 ∧ BW_MOD_ALT &&& BW_MOD_CMD = 0 ∧
    BW_MOD_ALT &&& BW_MOD_CTRL = 0 ∧ BW_MOD_SHIFT &&& BW_MOD_CMD = 0 ∧
    BW_MOD_SHIFT &&& BW_MOD_CTRL = 0 ∧ BW_MOD_CMD &&& BW_MOD_CTRL = 0 := by
  have hconst : BW_MOD_ALT = 1 ∧ BW_MOD_SHIFT = 2 ∧ BW_MOD_CMD = 4 ∧ BW_MOD_CTRL = 8 ∧
      BW_MOD_ALT &&& BW_MOD_SHIFT = 0 ∧ BW_MOD_ALT &&& BW_MOD_CMD = 0 ∧
      BW_MOD_ALT &&& BW_MOD_CTRL = 0 ∧ BW_MOD_SHIFT &&& BW_MOD_CMD = 0 ∧
      BW_MOD_SHIFT &&& BW_MOD_CTRL = 0 ∧ BW_MOD_CMD &&& BW_MOD_CTRL = 0 := by
    decide
  have hinj : ∀ (a b : Bool × Bool × Bool × Bool), modMaskT a = modMaskT b → a = b := by
    decide
  have hpres : ∀ (a : Bool × Bool × Bool × Bool), modPresent (modMaskT a) = a := by
    decide
  exact ⟨hinj p q h, hpres p, hconst⟩

/-- Witness for C10 at the alt-plus-command mask. -/
theorem bw_mod_flags_ok_witness :
    modMaskT (true, false, true, false) = modMaskT (true, false, true, false) ∧
    ((true, false, true, false) = ((true, false, true, false) : Bool × Bool × Bool × Bool) ∧
     modPresent (modMaskT (true, false, true, false)) = (true, false, true, false) ∧
     BW_MOD_ALT = 1 ∧ BW_MOD_SHIFT = 2 ∧ BW_MOD_CMD = 4 ∧ BW_MOD_CTRL = 8 ∧
     BW_MOD_ALT &&& BW_MOD_SHIFT = 0 ∧ BW_MOD_ALT &&& BW_MOD_CMD = 0 ∧
     BW_MOD_ALT &&& BW_MOD_CTRL = 0 ∧ BW_MOD_SHIFT &&& BW_MOD_CMD = 0 ∧
     BW_MOD_SHIFT &&& BW_MOD_CTRL = 0 ∧ BW_MOD_CMD &&& BW_MOD_CTRL = 0) :=
  ⟨rfl, bw_mod_flags_ok (true, false, true, false) (true, false, true, false) rfl⟩

/-- C8: getFocusedWindow returns the focused window id or the distinguished
value 0 meaning none; when the focused window id is a valid nonzero id,
0 is returned exactly on the none case, so 0 is never a valid result. -/
theorem bw_get_focused_window_none (focused : Option Nat)
    (hvalid : focused ≠ some 0) :
    (getFocusedWindow focused = 0 ↔ focused = none) ∧
    (focused = none ∨ focused = some (getFocusedWindow focused)) := by
  cases focused with
  | none => exact ⟨Iff.intro (fun _ => rfl) (fun _ => rfl), Or.inl rfl⟩
  | some w =>
      refine ⟨Iff.intro (fun h => absurd (congrArg some h) hvalid) ?_, Or.inr rfl⟩
      intro h
      cases h

/-- Witness for C8 at a focused window with id 7. -/
theorem bw_get_focused_window_none_witness :
    (some 7 : Option Nat) ≠ some 0 ∧
    ((getFocusedWindow (some 7) = 0 ↔ (some 7 : Option Nat) = none) ∧
     ((some 7 : Option Nat) = none ∨
      (some 7 : Option Nat) = some (getFocusedWindow (some 7)))) :=
  ⟨by decide, bw_get_focused_window_none (some 7) (by decide)⟩

/-- C3: retile recomputes the frame assignments without changing the model
state, so running it twice in a row yields identical assignments. -/
theorem bw_retile_idempotent (s : EngineState) :
    retile (retile s).1 = retile s ∧ (retile s).1 = s :=
  ⟨rfl, rfl⟩

/-- C4: the event record carries kind, pid, wid and arg; on a keybind
match, the hotkey event placed at the back of the queue is exactly the
synthesized event whose kind is the matched action and whose arg is the
matched keybind's arg. -/
theorem bw_hotkey_event_carries_arg (table : List bw_keybind)
    (keycode mods : Nat) (q : EventQueue) (b : bw_keybind)
    (h : lookupKeybind table keycode mods = some b) :
    (dispatchKeystroke table keycode mods q).buf.getLast? = some (hotkeyEvent b) ∧
    (hotkeyEvent b).kind = b.action ∧ (hotkeyEvent b).arg = b.arg ∧
    (hotkeyEvent b).pid = 0 ∧ (hotkeyEvent b).wid = 0 := by
  refine ⟨?_, rfl, rfl, rfl, rfl⟩
  unfold dispatchKeystroke
  rw [h]
  exact pushEvent_getLast q (hotkeyEvent b)

/-- Witness for C4 on a one-entry keybind table. -/
theorem bw_hotkey_event_carries_arg_witness :
    lookupKeybind [⟨5, 1, 20, 3⟩] 5 1 = some ⟨5, 1, 20, 3⟩ ∧
    ((dispatchKeystroke [⟨5, 1, 20, 3⟩] 5 1 (initQueue 4)).buf.getLast?
        = some (hotkeyEvent ⟨5, 1, 20, 3⟩) ∧
     (hotkeyEvent (⟨5, 1, 20, 3⟩ : bw_keybind)).kind
        = (⟨5, 1, 20, 3⟩ : bw_keybind).action ∧
     (hotkeyEvent (⟨5, 1, 20, 3⟩ : bw_keybind)).arg
        = (⟨5, 1, 20, 3⟩ : bw_keybind).arg ∧
     (hotkeyEvent (⟨5, 1, 20, 3⟩ : bw_keybind)).pid = 0 ∧
     (hotkeyEvent (⟨5, 1, 20, 3⟩ : bw_keybind)).wid = 0) :=
  ⟨by decide, bw_hotkey_event_carries_arg [⟨5, 1, 20, 3⟩] 5 1 (initQueue 4)
    ⟨5, 1, 20, 3⟩ (by decide)⟩

/-- C6: keybind lookup is a pure function of keycode, modifiers and table:
equal inputs give equal results; completing a lookup that captured its
table before a table replacement is unaffected by the replacement; lookup
scans the table in order, first match wins. -/
theorem bw_lookup_pure_and_isolated (s : KeybindDispatcher)
    (t2 ta tb : List bw_keybind) (k1 m1 k2 m2 : Nat)
    (b0 : bw_keybind) (tl : List bw_keybind)
    (hk : k1 = k2) (hm : m1 = m2) (ht : ta = tb) :
    lookupKeybind ta k1 m1 = lookupKeybind tb k2 m2 ∧
    completeLookup (setKeybinds (beginLookup s k1 m1) t2)
      = completeLookup (beginLookup s k1 m1) ∧
    lookupKeybind (b0 :: tl) k1 m1
      = (if b0.keycode == k1 && b0.mods == m1 then some b0
         else lookupKeybind tl k1 m1) := by
  subst hk
  subst hm
  subst ht
  refine ⟨rfl, rfl, ?_⟩
  cases hb : (b0.keycode == k1 && b0.mods == m1) with
  | true => simp [lookupKeybind, List.find?, hb]
  | false => simp [lookupKeybind, List.find?, hb]

/-- Witness for C6 on a one-entry table. -/
theorem bw_lookup_pure_and_isolated_witness :
    (1 : Nat) = 1 ∧ (2 : Nat) = 2 ∧
    ([⟨1, 2, 20, 7⟩] : List bw_keybind) = [⟨1, 2, 20, 7⟩] ∧
    (lookupKeybind [⟨1, 2, 20, 7⟩] 1 2 = lookupKeybind [⟨1, 2, 20, 7⟩] 1 2 ∧
     completeLookup (setKeybinds (beginLookup ⟨[⟨1, 2, 20, 7⟩], none⟩ 1 2) [])
        = completeLookup (beginLookup ⟨[⟨1, 2, 20, 7⟩], none⟩ 1 2) ∧
     lookupKeybind [⟨1, 2, 20, 7⟩] 1 2
        = (if (⟨1, 2, 20, 7⟩ : bw_keybind).keycode == 1
              && (⟨1, 2, 20, 7⟩ : bw_keybind).mods == 2 then some ⟨1, 2, 20, 7⟩
           else lookupKeybind [] 1 2)) :=
  ⟨rfl, rfl, rfl,
   bw_lookup_pure_and_isolated ⟨[⟨1, 2, 20, 7⟩], none⟩ [] [⟨1, 2, 20, 7⟩]
     [⟨1, 2, 20, 7⟩] 1 2 1 2 ⟨1, 2, 20, 7⟩ [] rfl rfl rfl⟩

/-- C7: a command that does not parse into the known command set is
answered with a structured failure carrying the unknown-command error, and
the server state after handling it equals the state before. -/
theorem bw_ipc_malformed_no_effect (s : ServerState) (c : IpcCommand)
    (h : parseIpcCommand c = none) :
    (handleIpcCommand s c).1 = s ∧
    (handleIpcCommand s c).2.ok = false ∧
    (handleIpcCommand s c).2.error = some ("unknown command") := by
  unfold handleIpcCommand
  rw [h]
  exact ⟨rfl, rfl, rfl⟩

/-- Witness for C7 on the bogus command of the spec scenario. -/
theorem bw_ipc_malformed_no_effect_witness :
    parseIpcCommand ⟨"bogus", []⟩ = none ∧
    ((handleIpcCommand ⟨demoEngine, initQueue 8⟩ ⟨"bogus", []⟩).1
        = ⟨demoEngine, initQueue 8⟩ ∧
     (handleIpcCommand ⟨demoEngine, initQueue 8⟩ ⟨"bogus", []⟩).2.ok = false ∧
     (handleIpcCommand ⟨demoEngine, initQueue 8⟩ ⟨"bogus", []⟩).2.error
        = some ("unknown command")) :=
  ⟨by decide, bw_ipc_malformed_no_effect ⟨demoEngine, initQueue 8⟩ ⟨"bogus", []⟩ (by decide)⟩

/-- C2: after any sequence of window-created and window-destroyed events
applied from the initial state, every window tracked in the workspace tree
appears in exactly one leaf, and the leaf list carries no duplicates; a
leaf references exactly one window by construction of the tree type. -/
theorem bw_tree_unique_leaves (es : List WindowEvent) (wid : Nat)
    (hmem : wid ∈ treeLeaves (runWindowEvents es)) :
    (treeLeaves (runWindowEvents es)).count wid = 1 ∧
    (treeLeaves (runWindowEvents es)).Nodup :=
  ⟨List.count_eq_one_of_mem (runWindowEvents_nodup es) hmem,
   runWindowEvents_nodup es⟩

/-- Witness for C2 on the history create 1, create 2, destroy 1. -/
theorem bw_tree_unique_leaves_witness :
    2 ∈ treeLeaves (runWindowEvents
      [WindowEvent.created 1, WindowEvent.created 2, WindowEvent.destroyed 1]) ∧
    ((treeLeaves (runWindowEvents
        [WindowEvent.created 1, WindowEvent.created 2, WindowEvent.destroyed 1])).count 2 = 1 ∧
     (treeLeaves (runWindowEvents
        [WindowEvent.created 1, WindowEvent.created 2, WindowEvent.destroyed 1])).Nodup) :=
  ⟨by decide, bw_tree_unique_leaves
    [WindowEvent.created 1, WindowEvent.created 2, WindowEvent.destroyed 1] 2 (by decide)⟩

/-- Queue history invariant: starting from any in-range queue, the events
delivered so far followed by the still-buffered events form a subsequence
of the starting backlog followed by the emitted events; the delivered,
buffered and dropped counts balance the emitted count; and the capacity is
preserved. -/
theorem runQueueFrom_spec (ops : List QueueOp) :
    ∀ (q : EventQueue) (d : List bw_event), q.buf.length ≤ q.cap → 0 < q.cap →
    ((runQueueFrom q d ops).2 ++ (runQueueFrom q d ops).1.buf).Sublist
      ((d ++ q.buf) ++ emitted ops) ∧
    (runQueueFrom q d ops).2.length + (runQueueFrom q d ops).1.buf.length
        + (runQueueFrom q d ops).1.dropped
      = d.length + q.buf.length + q.dropped + (emitted ops).length ∧
    (runQueueFrom q d ops).1.cap = q.cap := by
  induction ops with
  | nil =>
      intro q d hle hcap
      refine ⟨?_, by simp [runQueueFrom, emitted], rfl⟩
      simp only [runQueueFrom, List.foldl_nil, emitted, List.filterMap_nil,
        List.append_nil]
      exact List.Sublist.refl _
  | cons op ops ih =>
      intro q d hle hcap
      cases op with
      | drain =>
          have hstep : runQueueFrom q d (QueueOp.drain :: ops)
              = runQueueFrom { q with buf := [] } (d ++ q.buf) ops := rfl
          rw [hstep]
          obtain ⟨h1, h2, h3⟩ :=
            ih { q with buf := [] } (d ++ q.buf) (by simp) hcap
          refine ⟨?_, ?_, h3⟩
          · simpa [emitted, List.filterMap_cons] using h1
          · simp only [emitted, List.filterMap_cons] at h2 ⊢
            simp at h2 ⊢
            omega
      | emit e =>
          by_cases hlt : q.buf.length < q.cap
          · have hstep : runQueueFrom q d (QueueOp.emit e :: ops)
                = runQueueFrom { q with buf := q.buf ++ [e] } d ops := by
              simp [runQueueFrom, queueStep, pushEvent, hlt]
            rw [hstep]
            obtain ⟨h1, h2, h3⟩ :=
              ih { q with buf := q.buf ++ [e] } d (by simp; omega) hcap
            refine ⟨?_, ?_, h3⟩
            · simpa [emitted, List.filterMap_cons, List.append_assoc] using h1
            · simp only [emitted, List.filterMap_cons] at h2 ⊢
              simp at h2 ⊢
              omega
          · have hql : q.buf.length = q.cap := Nat.le_antisymm hle (Nat.not_lt.1 hlt)
            have htl : q.buf.tail.length = q.buf.length - 1 := List.length_tail _
            have hstep : runQueueFrom q d (QueueOp.emit e :: ops)
                = runQueueFrom
                    { q with buf := q.buf.tail ++ [e], dropped := q.dropped + 1 }
                    d ops := by
              simp [runQueueFrom, queueStep, pushEvent, hlt]
            rw [hstep]
            obtain ⟨h1, h2, h3⟩ :=
              ih { q with buf := q.buf.tail ++ [e], dropped := q.dropped + 1 } d
                (by simp [htl]; omega) hcap
            refine ⟨?_, ?_, h3⟩
            · have hemit : emitted (QueueOp.emit e :: ops) = e :: emitted ops := rfl
              rw [hemit]
              have h4 : (d ++ q.buf.tail).Sublist (d ++ q.buf) :=
                (List.tail_sublist q.buf).append_left d
              have h5 : ((d ++ q.buf.tail) ++ [e]).Sublist ((d ++ q.buf) ++ [e]) :=
                h4.append_right [e]
              have h6 := h5.append_right (emitted ops)
              have hsub : ((d ++ (q.buf.tail ++ [e])) ++ emitted ops).Sublist
                  ((d ++ q.buf) ++ (e :: emitted ops)) := by
                simpa [List.append_assoc] using h6
              exact h1.trans hsub
            · simp only [emitted, List.filterMap_cons] at h2 ⊢
              simp [htl] at h2 ⊢
              omega

/-- C5: along any history of enqueues and drains from an empty queue of
positive capacity, the delivered events followed by the still-queued
events form a subsequence of the emitted events, so delivery is in FIFO
order and no event is delivered more often than it was emitted; the
delivered, queued and dropped counts account for every emitted event; and
when the emitted events are distinct none is ever delivered twice. -/
theorem bw_event_queue_no_loss (cap : Nat) (ops : List QueueOp) (hcap : 0 < cap) :
    ((runQueueOps cap ops).2 ++ (runQueueOps cap ops).1.buf).Sublist (emitted ops) ∧
    (runQueueOps cap ops).2.Sublist (emitted ops) ∧
    (runQueueOps cap ops).2.length + (runQueueOps cap ops).1.buf.length
        + (runQueueOps cap ops).1.dropped = (emitted ops).length ∧
    ((emitted ops).Nodup → (runQueueOps cap ops).2.Nodup) := by
  obtain ⟨h1, h2, _⟩ := runQueueFrom_spec ops (initQueue cap) [] (by simp [initQueue]) hcap
  have h1s : ((runQueueOps cap ops).2 ++ (runQueueOps cap ops).1.buf).Sublist
      (emitted ops) := by
    simpa [runQueueOps, initQueue] using h1
  have hdel : (runQueueOps cap ops).2.Sublist (emitted ops) :=
    (List.sublist_append_left _ _).trans h1s
  refine ⟨h1s, hdel, ?_, fun hn => hdel.nodup hn⟩
  simpa [runQueueOps, initQueue] using h2

/-- Witness for C5 on a capacity-1 queue that overflows once. -/
theorem bw_event_queue_no_loss_witness :
    0 < 1 ∧
    (((runQueueOps 1 [QueueOp.emit ⟨1, 0, 1, 0⟩, QueueOp.emit ⟨2, 0, 2, 0⟩,
          QueueOp.drain]).2 ++
        (runQueueOps 1 [QueueOp.emit ⟨1, 0, 1, 0⟩, QueueOp.emit ⟨2, 0, 2, 0⟩,
          QueueOp.drain]).1.buf).Sublist
        (emitted [QueueOp.emit ⟨1, 0, 1, 0⟩, QueueOp.emit ⟨2, 0, 2, 0⟩,
          QueueOp.drain]) ∧
     (runQueueOps 1 [QueueOp.emit ⟨1, 0, 1, 0⟩, QueueOp.emit ⟨2, 0, 2, 0⟩,
          QueueOp.drain]).2.Sublist
        (emitted [QueueOp.emit ⟨1, 0, 1, 0⟩, QueueOp.emit ⟨2, 0, 2, 0⟩,
          QueueOp.drain]) ∧
     (runQueueOps 1 [QueueOp.emit ⟨1, 0, 1, 0⟩, QueueOp.emit ⟨2, 0, 2, 0⟩,
          QueueOp.drain]).2.length +
       (runQueueOps 1 [QueueOp.emit ⟨1, 0, 1, 0⟩, QueueOp.emit ⟨2, 0, 2, 0⟩,
          QueueOp.drain]).1.buf.length +
       (runQueueOps 1 [QueueOp.emit ⟨1, 0, 1, 0⟩, QueueOp.emit ⟨2, 0, 2, 0⟩,
          QueueOp.drain]).1.dropped
       = (emitted [QueueOp.emit ⟨1, 0, 1, 0⟩, QueueOp.emit ⟨2, 0, 2, 0⟩,
          QueueOp.drain]).length ∧
     ((emitted [QueueOp.emit ⟨1, 0, 1, 0⟩, QueueOp.emit ⟨2, 0, 2, 0⟩,
          QueueOp.drain]).Nodup →
       (runQueueOps 1 [QueueOp.emit ⟨1, 0, 1, 0⟩, QueueOp.emit ⟨2, 0, 2, 0⟩,
          QueueOp.drain]).2.Nodup)) :=
  ⟨Nat.one_pos, bw_event_queue_no_loss 1
    [QueueOp.emit ⟨1, 0, 1, 0⟩, QueueOp.emit ⟨2, 0, 2, 0⟩, QueueOp.drain] Nat.one_pos⟩

/-- Splitting a half-open interval at an interior ratio point covers it
exactly and disjointly. -/
theorem inIv_split (a len r p : ℚ) (hlen : 0 < len) (hr0 : 0 < r) (hr1 : r < 1) :
    (inIv a len p ↔ (inIv a (len * r) p ∨ inIv (a + len * r) (len * (1 - r)) p)) ∧
    ¬ (inIv a (len * r) p ∧ inIv (a + len * r) (len * (1 - r)) p) := by
  have h1 : 0 < len * r := mul_pos hlen hr0
  have h2 : 0 < len * (1 - r) := mul_pos hlen (by linarith)
  have hs : len * r + len * (1 - r) = len := by ring
  unfold inIv
  constructor
  · constructor
    · intro h
      rcases lt_or_le p (a + len * r) with hc | hc
      · exact Or.inl ⟨h.1, hc⟩
      · refine Or.inr ⟨hc, ?_⟩
        have hp2 := h.2
        linarith
    · intro h
      rcases h with h | h
      · have hp2 := h.2
        exact ⟨h.1, by linarith⟩
      · have hp1 := h.1
        have hp2 := h.2
        exact ⟨by linarith, by linarith⟩
  · rintro ⟨hl, hr⟩
    have hl2 := hl.2
    have hr1q := hr.1
    linarith

/-- Subdividing a positive frame at an interior ratio yields two positive
frames that cover the frame exactly and are disjoint. -/
theorem splitFrame_props (f : bw_frame) (o : SplitOrientation) (r : ℚ)
    (hw : 0 < f.w) (hh : 0 < f.h) (hr0 : 0 < r) (hr1 : r < 1) :
    (0 < (splitFrame f o r).1.w ∧ 0 < (splitFrame f o r).1.h) ∧
    (0 < (splitFrame f o r).2.w ∧ 0 < (splitFrame f o r).2.h) ∧
    (∀ px py, pointIn px py f ↔
      (pointIn px py (splitFrame f o r).1 ∨ pointIn px py (splitFrame f o r).2)) ∧
    (∀ px py, pointIn px py (splitFrame f o r).1 →
      ¬ pointIn px py (splitFrame f o r).2) := by
  have hr2 : 0 < 1 - r := by linarith
  cases o with
  | vertical =>
      refine ⟨⟨mul_pos hw hr0, hh⟩, ⟨mul_pos hw hr2, hh⟩, ?_, ?_⟩
      · intro px py
        have hx := inIv_split f.x f.w r px hw hr0 hr1
        show inIv f.x f.w px ∧ inIv f.y f.h py ↔
          ((inIv f.x (f.w * r) px ∧ inIv f.y f.h py) ∨
           (inIv (f.x + f.w * r) (f.w * (1 - r)) px ∧ inIv f.y f.h py))
        rw [hx.1]
        exact or_and_right
      · intro px py hp1 hp2
        exact (inIv_split f.x f.w r px hw hr0 hr1).2 ⟨hp1.1, hp2.1⟩
  | horizontal =>
      refine ⟨⟨hw, mul_pos hh hr0⟩, ⟨hw, mul_pos hh hr2⟩, ?_, ?_⟩
      · intro px py
        have hy := inIv_split f.y f.h r py hh hr0 hr1
        show inIv f.x f.w px ∧ inIv f.y f.h py ↔
          ((inIv f.x f.w px ∧ inIv f.y (f.h * r) py) ∨
           (inIv f.x f.w px ∧ inIv (f.y + f.h * r) (f.h * (1 - r)) py))
        rw [hy.1]
        exact and_or_left
      · intro px py hp1 hp2
        exact (inIv_split f.y f.h r py hh hr0 hr1).2 ⟨hp1.2, hp2.2⟩

/-- Every rectangle a well-formed tree assigns lies inside the frame it was
subdivided from. -/
theorem retileTree_subset (t : TilingTree) :
    ∀ (f : bw_frame), wfTree t = true → 0 < f.w → 0 < f.h →
    ∀ pr ∈ retileTree f t, ∀ px py, pointIn px py pr.2 → pointIn px py f := by
  induction t with
  | leaf wid =>
      intro f _ _ _ pr hpr px py hp
      simp only [retileTree, List.mem_singleton] at hpr
      rw [hpr] at hp
      exact hp
  | node o r l rt ihl ihr =>
      intro f hwf hw hh pr hpr px py hp
      simp only [wfTree, Bool.and_eq_true, decide_eq_true_eq] at hwf
      obtain ⟨hr0, hr1, hwl, hwr⟩ := hwf
      obtain ⟨⟨hw1, hh1⟩, ⟨hw2, hh2⟩, hcov, _⟩ := splitFrame_props f o r hw hh hr0 hr1
      simp only [retileTree, List.mem_append] at hpr
      rcases hpr with hpr | hpr
      · exact (hcov px py).2 (Or.inl (ihl _ hwl hw1 hh1 pr hpr px py hp))
      · exact (hcov px py).2 (Or.inr (ihr _ hwr hw2 hh2 pr hpr px py hp))

/-- A point lies in the frame exactly when it lies in one of the assigned
rectangles. -/
theorem retileTree_cover (t : TilingTree) :
    ∀ (f : bw_frame), wfTree t = true → 0 < f.w → 0 < f.h →
    ∀ px py, (pointIn px py f ↔ ∃ pr ∈ retileTree f t, pointIn px py pr.2) := by
  induction t with
  | leaf wid =>
      intro f _ _ _ px py
      simp [retileTree]
  | node o r l rt ihl ihr =>
      intro f hwf hw hh px py
      simp only [wfTree, Bool.and_eq_true, decide_eq_true_eq] at hwf
      obtain ⟨hr0, hr1, hwl, hwr⟩ := hwf
      obtain ⟨⟨hw1, hh1⟩, ⟨hw2, hh2⟩, hcov, _⟩ := splitFrame_props f o r hw hh hr0 hr1
      rw [hcov px py, ihl _ hwl hw1 hh1 px py, ihr _ hwr hw2 hh2 px py]
      simp only [retileTree, List.mem_append]
      constructor
      · rintro (⟨pr, hpr, hp⟩ | ⟨pr, hpr, hp⟩)
        · exact ⟨pr, Or.inl hpr, hp⟩
        · exact ⟨pr, Or.inr hpr, hp⟩
      · rintro ⟨pr, hpr | hpr, hp⟩
        · exact Or.inl ⟨pr, hpr, hp⟩
        · exact Or.inr ⟨pr, hpr, hp⟩

/-- The assigned rectangles of a well-formed tree are pairwise disjoint. -/
theorem retileTree_disjoint (t : TilingTree) :
    ∀ (f : bw_frame), wfTree t = true → 0 < f.w → 0 < f.h →
    ((retileTree f t).map Prod.snd).Pairwise framesDisjoint := by
  induction t with
  | leaf wid =>
      intro f _ _ _
      simp [retileTree]
  | node o r l rt ihl ihr =>
      intro f hwf hw hh
      simp only [wfTree, Bool.and_eq_true, decide_eq_true_eq] at hwf
      obtain ⟨hr0, hr1, hwl, hwr⟩ := hwf
      obtain ⟨⟨hw1, hh1⟩, ⟨hw2, hh2⟩, _, hdisj⟩ := splitFrame_props f o r hw hh hr0 hr1
      simp only [retileTree, List.map_append]
      rw [List.pairwise_append]
      refine ⟨ihl _ hwl hw1 hh1, ihr _ hwr hw2 hh2, ?_⟩
      intro g1 hg1 g2 hg2
      obtain ⟨pr1, hpr1, rfl⟩ := List.mem_map.1 hg1
      obtain ⟨pr2, hpr2, rfl⟩ := List.mem_map.1 hg2
      intro px py hp1 hp2
      have hs1 := retileTree_subset l (splitFrame f o r).1 hwl hw1 hh1 pr1 hpr1 px py hp1
      have hs2 := retileTree_subset rt (splitFrame f o r).2 hwr hw2 hh2 pr2 hpr2 px py hp2
      exact hdisj px py hs1 hs2

/-- Retile produces one assignment per leaf. -/
theorem retileTree_length (f : bw_frame) (t : TilingTree) :
    (retileTree f t).length = (leafWindows t).length := by
  induction t generalizing f with
  | leaf wid => rfl
  | node o r l rt ihl ihr => simp [retileTree, leafWindows, ihl, ihr]

/-- The assigned windows are exactly the leaf windows, in order. -/
theorem retileTree_fst (f : bw_frame) (t : TilingTree) :
    (retileTree f t).map Prod.fst = leafWindows t := by
  induction t generalizing f with
  | leaf wid => rfl
  | node o r l rt ihl ihr => simp [retileTree, leafWindows, ihl, ihr]

/-- The demonstration tree is well formed. -/
theorem wfTree_demo : wfTree demoTree = true := by
  simp only [demoTree, wfTree, Bool.and_eq_true, decide_eq_true_eq]
  norm_num

/-- C1: on a workspace whose tree has strict interior ratios and whose
display has a positive usable frame, retile partitions the usable frame:
one rectangle per leaf window, the assigned windows are exactly the
leaves, the rectangles cover every point of the usable frame, they are
pairwise disjoint, and the retile output on the engine state is exactly
this assignment list. -/
theorem bw_retile_partitions (s : EngineState) (t : TilingTree)
    (ht : s.tree = some t) (hwf : wfTree t = true)
    (hw : 0 < (getDisplayFrame s).w) (hh : 0 < (getDisplayFrame s).h) :
    retilePartitionSpec (getDisplayFrame s) t ∧
    (retile s).2 = retileTree (getDisplayFrame s) t := by
  constructor
  · exact ⟨retileTree_length _ t, retileTree_fst _ t,
      retileTree_cover t _ hwf hw hh, retileTree_disjoint t _ hwf hw hh⟩
  · simp [retile, ht, getDisplayFrame]

/-- Witness for C1 on the two-window scenario of spec section 8. -/
theorem bw_retile_partitions_witness :
    demoEngine.tree = some demoTree ∧
    wfTree demoTree = true ∧
    0 < (getDisplayFrame demoEngine).w ∧
    0 < (getDisplayFrame demoEngine).h ∧
    (retilePartitionSpec (getDisplayFrame demoEngine) demoTree ∧
     (retile demoEngine).2 = retileTree (getDisplayFrame demoEngine) demoTree) :=
  ⟨rfl, wfTree_demo, by decide, by decide,
   bw_retile_partitions demoEngine demoTree rfl wfTree_demo (by decide) (by decide)⟩
